import Mathlib

/-!
Verification of the fundamental-data-service repository
(`src/insertion.py` and `src/api.py`) via a shallow embedding in Lean 4.

Conventions of the embedding:
* Python `None` / JSON `null`, strings and numbers that may appear as raw
  metric values are modelled by the inductive type `Raw`.
* Fallible Python code (uncaught `IndexError` / `KeyError`, uncaught
  unique-constraint violations from the database driver) is modelled with
  `Except`.
* The relational store is modelled as a list of rows; uniqueness
  constraints appear explicitly in the insert functions.
-/

/-- A raw JSON scalar as it can reach `valid_number`:
`null`, a string token, or a number. -/
inductive Raw where
  | null : Raw
  | str : String → Raw
  | num : Rat → Raw
deriving DecidableEq

/-- Splitting a character list at every occurrence of `sep`, returning the
first component and the list of remaining components (so the full component
list is `fst :: snd`).  This models Python's `s.split(sep)` for a
single-character separator. -/
def splitOnChar (sep : Char) : List Char → List Char × List (List Char)
  | [] => ([], [])
  | c :: rest =>
    let r := splitOnChar sep rest
    if c = sep then ([], r.1 :: r.2) else (c :: r.1, r.2)

/-- Re-joining the components produced by `splitOnChar`. -/
def joinSep (sep : Char) : List (List Char) → List Char
  | [] => []
  | l :: ls => sep :: (l ++ joinSep sep ls)

/-- Strip leading and trailing spaces, modelling the whitespace stripping of
Python's `float` builtin. -/
def trimSpaces (cs : List Char) : List Char :=
  ((cs.dropWhile (· = ' ')).reverse.dropWhile (· = ' ')).reverse

/-- Numeric value of a digit list, most significant digit first. -/
def natOfDigits (cs : List Char) : Nat :=
  cs.foldl (fun a c => a * 10 + (c.toNat - 48)) 0

/-- Modelled from the Python builtin `float` applied to a string (the subset
relevant here: optional surrounding spaces, optional sign, decimal digits
with at most one decimal point and at least one digit).  `none` models the
`ValueError` that `float` raises on an unparsable token. -/
def pyFloat (s : String) : Option Rat :=
  let cs := trimSpaces s.toList
  let sb : Bool × List Char :=
    match cs with
    | '+' :: rest => (false, rest)
    | '-' :: rest => (true, rest)
    | _ => (false, cs)
  let signed : Nat → Nat → Rat := fun n d =>
    if sb.1 then mkRat (-(n : Int)) d else mkRat (n : Int) d
  match splitOnChar '.' sb.2 with
  | (intPart, []) =>
    if !intPart.isEmpty && intPart.all (·.isDigit) then
      some (signed (natOfDigits intPart) 1)
    else none
  | (intPart, [fracPart]) =>
    if (!intPart.isEmpty || !fracPart.isEmpty)
        && intPart.all (·.isDigit) && fracPart.all (·.isDigit) then
      some (signed (natOfDigits intPart * 10 ^ fracPart.length + natOfDigits fracPart)
        (10 ^ fracPart.length))
    else none
  | _ => none

/-- The Python builtin `float` applied to any `Raw` value: a number is
returned unchanged, a string is parsed, and `float(None)` raises a
`TypeError` (modelled as `none`; in `valid_number` the bare `except`
catches it). -/
def pyFloatRaw : Raw → Option Rat
  | .null => none
  | .num q => some q
  | .str s => pyFloat s

/-- `valid_number` from `src/insertion.py` (lines 104–110):
returns `None` for the literal tokens `"N/A"`, `"-"`, `""` and `None`,
otherwise attempts `float(v)`, returning `None` on any parse failure
(the bare `except`).  The function is total: no exception escapes. -/
def valid_number (v : Raw) : Option Rat :=
  if v = .str "N/A" ∨ v = .str "-" ∨ v = .str "" ∨ v = .null then none
  else pyFloatRaw v

/-- `extract_year_month` from `src/insertion.py` (lines 112–116):
absent (`(none, none)`) for `None`, `""`, `"TTM"` or a label without `"-"`;
otherwise `fy.split("-")[:2]`, i.e. the first two components of the full
split.  The `(_, [])` branch is unreachable: the dash guard guarantees at
least two split components. -/
def extract_year_month (fy : Option String) : Option String × Option String :=
  match fy with
  | none => (none, none)
  | some s =>
    if s = "" ∨ s = "TTM" ∨ ¬ ('-' ∈ s.toList) then (none, none)
    else
      match splitOnChar '-' s.toList with
      | (y, m :: _) => (some (String.mk y), some (String.mk m))
      | (_, []) => (none, none)

instance {ε α : Type} [DecidableEq ε] [DecidableEq α] : DecidableEq (Except ε α) :=
  fun x y =>
    match x, y with
    | .ok a, .ok b =>
      if h : a = b then isTrue (by rw [h])
      else isFalse (by intro hh; cases hh; exact h rfl)
    | .error a, .error b =>
      if h : a = b then isTrue (by rw [h])
      else isFalse (by intro hh; cases hh; exact h rfl)
    | .ok _, .error _ => isFalse (by intro hh; cases hh)
    | .error _, .ok _ => isFalse (by intro hh; cases hh)

/-- The fixed list of recognized statement blocks
(`FINANCIAL_BLOCKS` in `src/insertion.py`, lines 26–34). -/
def FINANCIAL_BLOCKS : List String :=
  ["per_share_data_array", "common_size_ratios", "income_statement",
   "balance_sheet", "cashflow_statement", "valuation_ratios",
   "valuation_and_quality"]

/-- An uncaught Python exception escaping `process_file`:
a `KeyError` from `mapping[block_name]` or an `IndexError` from
`fiscal_years[idx]`. -/
inductive Err where
  | keyError : Err
  | indexError : Err
deriving DecidableEq

/-- One tuple appended to `rows` by `process_file`
(`(ticker, period_type, year, month, metric_id, value)`).  The metric id is
an `Option` because `mapping[block_name].get(metric_name)` can be `None`. -/
structure ExtractedRow where
  ticker : String
  period : String
  year : String
  month : String
  metricTypeId : Option Nat
  value : Rat
deriving DecidableEq

/-- One period section of a source document (`financials["annuals"]` or
`financials["quarterly"]`): the `"Fiscal Year"` label sequence (the `.get`
default `[]` is folded into the field) and the statement blocks, each an
association of metric name to raw value sequence. -/
structure PeriodSection where
  fiscalYears : List (Option String)
  blocks : List (String × List (String × List Raw))

/-- The `financials` object of a source document. -/
structure Financials where
  annuals : Option PeriodSection
  quarterly : Option PeriodSection

/-- A parsed source document. -/
structure Document where
  financials : Option Financials

/-- The inner loop of `process_file` (lines 150–167): iterate a metric's
value sequence by index, drop indices whose value or year is absent, and
index the fiscal-year sequence by the value index — out of bounds raises
`IndexError`.  The Python loop appends each row before examining later
indices, but an exception discards the whole result, so building the tail
first is observationally identical. -/
def processMetricValues (ticker period : String) (fiscalYears : List (Option String))
    (metricId : Option Nat) : Nat → List Raw → Except Err (List ExtractedRow)
  | _, [] => .ok []
  | idx, v :: rest =>
    match valid_number v with
    | none => processMetricValues ticker period fiscalYears metricId (idx + 1) rest
    | some value =>
      match fiscalYears.get? idx with
      | none => .error .indexError
      | some fy =>
        if (extract_year_month fy).1 = none ∨ (extract_year_month fy).1 = some "" then
          processMetricValues ticker period fiscalYears metricId (idx + 1) rest
        else
          match processMetricValues ticker period fiscalYears metricId (idx + 1) rest with
          | .error e => .error e
          | .ok rest' =>
            .ok (⟨ticker, period, (extract_year_month fy).1.getD "",
              (extract_year_month fy).2.getD "", metricId, value⟩ :: rest')

/-- The metric loop of `process_file` (lines 147–167) for one statement
block: for each metric, `mapping[block_name]` (a `KeyError` if the block is
missing from the mapping — only reached when the block has at least one
metric) and then `mapping[block_name].get(metric_name)`, which yields
`none` for an unmapped metric. -/
def processBlockData (ticker period : String) (fiscalYears : List (Option String))
    (mapping : List (String × List (String × Nat))) (blockName : String) :
    List (String × List Raw) → Except Err (List ExtractedRow)
  | [] => .ok []
  | (metricName, values) :: rest =>
    match List.lookup blockName mapping with
    | none => .error .keyError
    | some blockMapping =>
      match processMetricValues ticker period fiscalYears
          (List.lookup metricName blockMapping) 0 values with
      | .error e => .error e
      | .ok rs =>
        match processBlockData ticker period fiscalYears mapping blockName rest with
        | .error e => .error e
        | .ok rest' => .ok (rs ++ rest')

/-- The statement-block loop of `process_file` (lines 141–167): iterate the
recognized block names, skipping blocks absent from the period section. -/
def processBlocks (ticker period : String) (fiscalYears : List (Option String))
    (blocks : List (String × List (String × List Raw)))
    (mapping : List (String × List (String × Nat))) :
    List String → Except Err (List ExtractedRow)
  | [] => .ok []
  | blockName :: restBlocks =>
    match List.lookup blockName blocks with
    | none => processBlocks ticker period fiscalYears blocks mapping restBlocks
    | some blockData =>
      match processBlockData ticker period fiscalYears mapping blockName blockData with
      | .error e => .error e
      | .ok rs =>
        match processBlocks ticker period fiscalYears blocks mapping restBlocks with
        | .error e => .error e
        | .ok rest' => .ok (rs ++ rest')

/-- One period section of `process_file` (lines 134–139): a missing section
contributes nothing. -/
def processSection (ticker period : String)
    (mapping : List (String × List (String × Nat))) :
    Option PeriodSection → Except Err (List ExtractedRow)
  | none => .ok []
  | some sec => processBlocks ticker period sec.fiscalYears sec.blocks mapping FINANCIAL_BLOCKS

/-- `process_file` from `src/insertion.py` (lines 122–169): the ticker is
derived from the filename by the caller and passed in here; a document
without `financials` yields no rows; otherwise the `annuals` and
`quarterly` sections are processed in order. -/
def process_file (ticker : String) (doc : Document)
    (mapping : List (String × List (String × Nat))) : Except Err (List ExtractedRow) :=
  match doc.financials with
  | none => .ok []
  | some fin =>
    match processSection ticker "annuals" mapping fin.annuals with
    | .error e => .error e
    | .ok a =>
      match processSection ticker "quarterly" mapping fin.quarterly with
      | .error e => .error e
      | .ok q => .ok (a ++ q)

/-- Every metric value sequence of the section fits inside the section's
fiscal-label sequence. -/
def sectionLenOkB (sec : PeriodSection) : Bool :=
  sec.blocks.all fun e => e.2.all fun mv =>
    decide (mv.2.length ≤ sec.fiscalYears.length)

/-- `sectionLenOkB` for both period sections of a document. -/
def docLenOkB (doc : Document) : Bool :=
  match doc.financials with
  | none => true
  | some fin =>
    (match fin.annuals with | none => true | some sec => sectionLenOkB sec) &&
    (match fin.quarterly with | none => true | some sec => sectionLenOkB sec)

/-- One row of the `fundamental_data` observation table
(`(ticker, period, year, month, fundamental_data_type_id, value)`), whose
first five fields form the `fundamental_data_unique` constraint. -/
structure ObsTuple where
  ticker : String
  period : String
  year : String
  month : String
  metricTypeId : Nat
  value : Rat
deriving DecidableEq

/-- The column tuple of the `fundamental_data_unique` constraint. -/
def obsKey (r : ObsTuple) : String × String × String × String × Nat :=
  (r.ticker, r.period, r.year, r.month, r.metricTypeId)

/-- Whether the table already holds a row with the given constraint key. -/
def keyIn (t : List ObsTuple) (k : String × String × String × String × Nat) : Bool :=
  t.any fun x => decide (obsKey x = k)

/-- One row of the multi-row `INSERT ... ON CONFLICT ON CONSTRAINT
fundamental_data_unique DO NOTHING`: a conflicting row is silently
discarded, leaving the table unchanged; otherwise the row is appended. -/
def insertObs (t : List ObsTuple) (r : ObsTuple) : List ObsTuple :=
  if keyIn t (obsKey r) then t else t ++ [r]

/-- `insert_fundamental_data` from `src/insertion.py` (lines 175–186):
the rows are inserted in order with conflict-skip semantics (within one
statement a later row conflicting with an earlier one is skipped too);
an empty batch is a no-op (`foldl` over `[]`). -/
def insert_fundamental_data (table : List ObsTuple) (rows : List ObsTuple) :
    List ObsTuple :=
  rows.foldl insertObs table

/-- The `fundamental_data_type` catalog table: rows `(type, name, id)`
with a uniqueness constraint on `(type, name)`. -/
abbrev CatTable := List (String × String × Nat)

/-- Whether the catalog already holds a row for the `(type, name)` pair. -/
def catKeyIn (t : CatTable) (b n : String) : Bool :=
  t.any fun r => decide (r.1 = b) && decide (r.2.1 = n)

/-- The live catalog table plus the sequence's next id. -/
structure CatState where
  table : CatTable
  next : Nat
deriving DecidableEq

/-- `INSERT INTO fundamental_data_type (type, name) VALUES (%s, %s)
RETURNING id` with *no* conflict handling: inserting a `(type, name)` pair
already present violates the unique constraint and the driver exception
propagates out of `create_fundamental_data_type_rows` (there is no
`try`/`except` and no `ON CONFLICT` clause on this insert). -/
def catInsert (st : CatState) (b n : String) : Except Unit (CatState × Nat) :=
  if catKeyIn st.table b n then .error ()
  else .ok (⟨st.table ++ [(b, n, st.next)], st.next + 1⟩, st.next)

/-- Lookup in the `existing` dict built from
`SELECT type, name, id FROM fundamental_data_type`. -/
def existingLookup (snapshot : CatTable) (b n : String) : Option Nat :=
  (snapshot.find? fun r => decide (r.1 = b) && decide (r.2.1 = n)).map (·.2.2)

/-- The inner metric loop of `create_fundamental_data_type_rows`
(`src/insertion.py`, lines 84–95) for one block: pairs found in the
snapshot reuse their id; the rest are inserted against the live table. -/
def createRowsForBlock (snapshot : CatTable) (b : String) (st : CatState) :
    List String → Except Unit (List ((String × String) × Nat) × CatState)
  | [] => .ok ([], st)
  | n :: rest =>
    match existingLookup snapshot b n with
    | some i =>
      match createRowsForBlock snapshot b st rest with
      | .error e => .error e
      | .ok (m, st') => .ok (((b, n), i) :: m, st')
    | none =>
      match catInsert st b n with
      | .error e => .error e
      | .ok (st', i) =>
        match createRowsForBlock snapshot b st' rest with
        | .error e => .error e
        | .ok (m, st'') => .ok (((b, n), i) :: m, st'')

/-- `create_fundamental_data_type_rows` from `src/insertion.py`
(lines 74–98).  `snapshot` is the result of the initial SELECT; `st` is the
live table the INSERTs run against.  The two coincide in a single-writer
run and differ exactly when a concurrent catalog writer committed between
the SELECT and an INSERT. -/
def create_fundamental_data_type_rows (snapshot : CatTable) (st : CatState) :
    List (String × List String) →
      Except Unit (List ((String × String) × Nat) × CatState)
  | [] => .ok ([], st)
  | (b, ns) :: rest =>
    match createRowsForBlock snapshot b st ns with
    | .error e => .error e
    | .ok (m1, st') =>
      match create_fundamental_data_type_rows snapshot st' rest with
      | .error e => .error e
      | .ok (m2, st'') => .ok (m1 ++ m2, st'')

/-- `PeriodType` from `src/api.py` (lines 39–41). -/
inductive PeriodT where
  | annuals : PeriodT
  | quarterly : PeriodT
deriving DecidableEq

/-- `FinancialStatementType` from `src/api.py` (lines 29–37). -/
inductive StatementT where
  | per_share_data_array : StatementT
  | common_size_ratios : StatementT
  | income_statement : StatementT
  | balance_sheet : StatementT
  | cashflow_statement : StatementT
  | valuation_ratios : StatementT
  | valuation_and_quality : StatementT
  | other : StatementT
deriving DecidableEq

/-- A row of `fundamental_data_type` as seen by the API
(`FundamentalDataType`, `src/api.py` lines 46–51). -/
structure ApiCatRow where
  id : Nat
  type : StatementT
  name : String
deriving DecidableEq

/-- A row of `fundamental_data` as seen by the API
(`FundamentalData`, `src/api.py` lines 53–64). -/
structure ApiObsRow where
  id : Nat
  ticker : String
  period : PeriodT
  year : String
  month : String
  typeId : Nat
  value : Rat
deriving DecidableEq

/-- The inner join `query(FundamentalData).join(FundamentalDataType)` on
the `fundamental_data_type_id` foreign key. -/
def joinRows (db : List ApiObsRow) (cat : List ApiCatRow) :
    List (ApiObsRow × ApiCatRow) :=
  db.flatMap fun r => (cat.filter fun c => decide (c.id = r.typeId)).map fun c => (r, c)

/-- An optional exact-match predicate: trivially true when the parameter
is absent. -/
def optMatch {α : Type} [DecidableEq α] (v : Option α) (x : α) : Bool :=
  match v with
  | none => true
  | some a => decide (x = a)

/-- An optional exact-match predicate on strings. -/
def optStrMatch (v : Option String) (x : String) : Bool :=
  match v with
  | none => true
  | some s => decide (x = s)

/-- `if param: query = query.filter(...)` for an enum-typed optional
parameter: `None` is falsy, an enum member is always truthy. -/
def applyFilter {α J : Type} (q : List J) (v : Option α) (f : J → α → Bool) :
    List J :=
  match v with
  | none => q
  | some a => q.filter fun j => f j a

/-- `if param: query = query.filter(...)` for an optional string
parameter: `None` *and the empty string* are falsy in Python, so `""`
skips the filter entirely. -/
def applyStrFilter {J : Type} (q : List J) (v : Option String) (f : J → String) :
    List J :=
  match v with
  | none => q
  | some s => if s = "" then q else q.filter fun j => decide (f j = s)

/-- The query built by `get_data_by_ticker` (`src/api.py`, lines 124–145):
mandatory exact ticker match, then the five optional filters in source
order (period, year, month, statement type, name). -/
def queryFiltered (db : List ApiObsRow) (cat : List ApiCatRow) (ticker : String)
    (period : Option PeriodT) (year month : Option String)
    (stype : Option StatementT) (name : Option String) :
    List (ApiObsRow × ApiCatRow) :=
  applyStrFilter
    (applyFilter
      (applyStrFilter
        (applyStrFilter
          (applyFilter
            ((joinRows db cat).filter fun rc => decide (rc.1.ticker = ticker))
            period fun rc p => decide (rc.1.period = p))
          year fun rc => rc.1.year)
        month fun rc => rc.1.month)
      stype fun rc s => decide (rc.2.type = s))
    name fun rc => rc.2.name

/-- `get_data_by_ticker` from `src/api.py` (lines 114–150): runs the
filtered query and raises a 404 `HTTPException` (modelled `.error ()`)
when the result list is empty. -/
def get_data_by_ticker (db : List ApiObsRow) (cat : List ApiCatRow)
    (ticker : String) (period : Option PeriodT) (year month : Option String)
    (stype : Option StatementT) (name : Option String) :
    Except Unit (List (ApiObsRow × ApiCatRow)) :=
  if queryFiltered db cat ticker period year month stype name = [] then .error ()
  else .ok (queryFiltered db cat ticker period year month stype name)

/-- The conjunction of the exact-match predicates of
`get_data_by_ticker`: mandatory ticker plus one exact-match conjunct per
supplied optional parameter. -/
def obsMatchesB (ticker : String) (period : Option PeriodT)
    (year month : Option String) (stype : Option StatementT)
    (name : Option String) (rc : ApiObsRow × ApiCatRow) : Bool :=
  decide (rc.1.ticker = ticker) && optMatch period rc.1.period &&
  optStrMatch year rc.1.year && optStrMatch month rc.1.month &&
  optMatch stype rc.2.type && optStrMatch name rc.2.name

/-- A one-row observation table used to witness the query theorems. -/
def dbC7 : List ApiObsRow := [⟨1, "AAPL", .annuals, "2021", "12", 1, mkRat 5 1⟩]

/-- A one-row catalog used to witness the query theorems. -/
def catC7 : List ApiCatRow := [⟨1, .income_statement, "revenue"⟩]

/-- `availability[period].append({...})`, creating the key with `[]` first
when absent (`src/api.py`, lines 182–188): the first entry with the given
period key is extended, or a new key is appended at the end. -/
def availAppend : List (PeriodT × List (String × String)) → PeriodT →
    (String × String) → List (PeriodT × List (String × String))
  | [], p, e => [(p, [e])]
  | (q, l) :: rest, p, e =>
    if q = p then (q, l ++ [e]) :: rest else (q, l) :: availAppend rest p e

/-- The grouping loop of `get_ticker_availability` (`src/api.py`,
lines 171–188): rows whose `(period, year, month)` key was already seen
are skipped (`unique_set`); otherwise the key is recorded and the
`(year, month)` entry appended under its period. -/
def buildAvailability : List (PeriodT × String × String) →
    List (PeriodT × String × String) → List (PeriodT × List (String × String)) →
    List (PeriodT × List (String × String))
  | [], _, avail => avail
  | r :: rest, seen, avail =>
    if r ∈ seen then buildAvailability rest seen avail
    else buildAvailability rest (seen ++ [r]) (availAppend avail r.1 (r.2.1, r.2.2))

/-- `get_ticker_availability` from `src/api.py` (lines 159–190): the
`SELECT DISTINCT period, year, month ... WHERE ticker = %s` query
(modelled as filter, project, deduplicate), a 404 when it returns no rows,
and otherwise the grouped availability mapping. -/
def get_ticker_availability (db : List ApiObsRow) (ticker : String) :
    Except Unit (List (PeriodT × List (String × String))) :=
  if ((db.filter fun r => decide (r.ticker = ticker)).map
      fun r => (r.period, r.year, r.month)).dedup = [] then .error ()
  else .ok (buildAvailability
    ((db.filter fun r => decide (r.ticker = ticker)).map
      fun r => (r.period, r.year, r.month)).dedup [] [])

/-- Loop invariant of `buildAvailability`: every grouped entry list is
duplicate-free and all its entries are recorded in `seen` under their
period. -/
def AvailInv (seen : List (PeriodT × String × String))
    (avail : List (PeriodT × List (String × String))) : Prop :=
  ∀ p l, (p, l) ∈ avail → l.Nodup ∧ ∀ e ∈ l, (p, e.1, e.2) ∈ seen

/-- An observation table with two rows duplicating one
`(ticker, period, year, month)` combination, used to witness C8. -/
def dbC8 : List ApiObsRow :=
  [⟨1, "AAPL", .annuals, "2021", "12", 1, mkRat 5 1⟩,
   ⟨2, "AAPL", .annuals, "2021", "12", 2, mkRat 6 1⟩]
theorem valid_number_str (s : String) : valid_number (Raw.str s) = pyFloat s := by
  by_cases h1 : s = "N/A"
  · subst h1; decide
  by_cases h2 : s = "-"
  · subst h2; decide
  by_cases h3 : s = ""
  · subst h3; decide
  simp [valid_number, h1, h2, h3, pyFloatRaw]

/-- **C2**: `valid_number` returns absent exactly for the literal tokens
`"N/A"`, `"-"`, the empty string, the null marker, and any token whose
numeric parse fails; it returns the parsed numeric value for every valid
numeric string (`valid_number` on a string agrees with the `float` parse),
and a number passes through unchanged.  The function is total, so no
exception reaches the caller. -/
theorem c2_valid_number_absent_exactly :
    (∀ v, valid_number v = none ↔
      (v = Raw.str "N/A" ∨ v = Raw.str "-" ∨ v = Raw.str "" ∨ v = Raw.null ∨
        pyFloatRaw v = none)) ∧
    (∀ s : String, valid_number (Raw.str s) = pyFloat s) ∧
    (∀ q : Rat, valid_number (Raw.num q) = some q) := by
  refine ⟨?_, valid_number_str, ?_⟩
  · intro v
    match v with
    | Raw.null => simp [valid_number]
    | Raw.num q => simp [valid_number, pyFloatRaw]
    | Raw.str s =>
      rw [valid_number_str]
      simp only [pyFloatRaw, Raw.str.injEq]
      constructor
      · intro h; exact Or.inr (Or.inr (Or.inr (Or.inr h)))
      · rintro (h | h | h | h | h)
        · subst h; decide
        · subst h; decide
        · subst h; decide
        · exact Raw.noConfusion h
        · exact h
  · intro q; simp [valid_number, pyFloatRaw]

theorem splitOnChar_fst_not_mem (sep : Char) (cs : List Char) :
    sep ∉ (splitOnChar sep cs).1 := by
  induction cs with
  | nil => simp [splitOnChar]
  | cons c rest ih =>
    simp only [splitOnChar]
    by_cases h : c = sep
    · simp [h]
    · simp only [h, if_false]
      intro hmem
      rcases List.mem_cons.mp hmem with h1 | h1
      · exact h h1.symm
      · exact ih h1

theorem splitOnChar_snd_not_mem (sep : Char) (cs : List Char) :
    ∀ l ∈ (splitOnChar sep cs).2, sep ∉ l := by
  induction cs with
  | nil => simp [splitOnChar]
  | cons c rest ih =>
    simp only [splitOnChar]
    by_cases h : c = sep
    · simp only [h, if_true, if_pos rfl]
      intro l hl
      rcases List.mem_cons.mp hl with h1 | h1
      · subst h1; exact splitOnChar_fst_not_mem sep rest
      · exact ih l h1
    · simp only [h, if_false]
      exact ih

theorem splitOnChar_join (sep : Char) (cs : List Char) :
    cs = (splitOnChar sep cs).1 ++ joinSep sep (splitOnChar sep cs).2 := by
  induction cs with
  | nil => simp [splitOnChar, joinSep]
  | cons c rest ih =>
    simp only [splitOnChar]
    by_cases h : c = sep
    · simp only [h, if_pos rfl, joinSep, List.nil_append]
      exact congrArg (sep :: ·) ih
    · simp only [h, if_false, List.cons_append]
      exact congrArg (c :: ·) ih

theorem splitOnChar_snd_ne_nil {sep : Char} {cs : List Char} (h : sep ∈ cs) :
    (splitOnChar sep cs).2 ≠ [] := by
  induction cs with
  | nil => cases h
  | cons c rest ih =>
    simp only [splitOnChar]
    by_cases hc : c = sep
    · simp [hc]
    · simp only [hc, if_false]
      rcases List.mem_cons.mp h with h1 | h1
      · exact absurd h1.symm hc
      · exact ih h1

/-- **C3 (counterexample)**: on the label `"2021-12-31"`, which has two
separators, `extract_year_month` keeps only the component between the
first and the second separator (`"12"`) as the month — not everything
after the first separator (`"12-31"`), as the claim states. -/
theorem c3_counterexample_second_separator :
    extract_year_month (some "2021-12-31") = (some "2021", some "12") ∧
      extract_year_month (some "2021-12-31") ≠ (some "2021", some "12-31") := by
  decide

/-- **C3 (amended)**: `extract_year_month` returns absent for a missing
label, for the empty or `"TTM"` label, and for any label without a
separator; for every other label it returns the text before the first
separator as the year and the text between the first separator and the
next separator (or the end) as the month — both components verbatim and
free of separators, with anything from a second separator onward
discarded from the month. -/
theorem c3_extract_year_month_amended :
    extract_year_month none = (none, none) ∧
    (∀ s : String, s = "" ∨ s = "TTM" ∨ '-' ∉ s.toList →
      extract_year_month (some s) = (none, none)) ∧
    (∀ s : String, s ≠ "" → s ≠ "TTM" → '-' ∈ s.toList →
      ∃ y m r,
        extract_year_month (some s) = (some (String.mk y), some (String.mk m)) ∧
        s.toList = y ++ '-' :: (m ++ r) ∧ '-' ∉ y ∧ '-' ∉ m ∧
        (r = [] ∨ ∃ r', r = '-' :: r')) := by
  refine ⟨rfl, ?_, ?_⟩
  · intro s h
    have hdef : extract_year_month (some s) =
        (if s = "" ∨ s = "TTM" ∨ ¬ ('-' ∈ s.toList) then (none, none)
         else match splitOnChar '-' s.toList with
           | (y, m :: _) => (some (String.mk y), some (String.mk m))
           | (_, []) => (none, none)) := rfl
    rw [hdef, if_pos h]
  · intro s h1 h2 h3
    have hguard : ¬ (s = "" ∨ s = "TTM" ∨ ¬ ('-' ∈ s.toList)) := by
      push_neg
      exact ⟨h1, h2, h3⟩
    rcases hsp : splitOnChar '-' s.toList with ⟨y, ms⟩
    match ms, hsp with
    | [], hsp =>
      have := splitOnChar_snd_ne_nil h3
      rw [hsp] at this
      exact absurd rfl this
    | m :: rest2, hsp =>
      refine ⟨y, m, joinSep '-' rest2, ?_, ?_, ?_, ?_, ?_⟩
      · have hdef : extract_year_month (some s) =
            (if s = "" ∨ s = "TTM" ∨ ¬ ('-' ∈ s.toList) then (none, none)
             else match splitOnChar '-' s.toList with
               | (y, m :: _) => (some (String.mk y), some (String.mk m))
               | (_, []) => (none, none)) := rfl
        rw [hdef, if_neg hguard, hsp]
      · have hj := splitOnChar_join '-' s.toList
        rw [hsp] at hj
        simpa [joinSep] using hj
      · have := splitOnChar_fst_not_mem '-' s.toList
        rw [hsp] at this
        exact this
      · have := splitOnChar_snd_not_mem '-' s.toList
        rw [hsp] at this
        exact this m (List.mem_cons_self m rest2)
      · match rest2 with
        | [] => exact Or.inl rfl
        | l :: ls => exact Or.inr ⟨l ++ joinSep '-' ls, rfl⟩

/-- Witness for the amended C3 theorem: the absent branch at `none`,
`"TTM"` and the separator-free `"2021"`, and the split branch at the
concrete label `"2021-12-31"`. -/
theorem c3_extract_year_month_amended_witness :
    extract_year_month none = (none, none) ∧
    extract_year_month (some "TTM") = (none, none) ∧
    extract_year_month (some "2021") = (none, none) ∧
    (("2021-12-31" : String) ≠ "" ∧ ("2021-12-31" : String) ≠ "TTM" ∧
      '-' ∈ ("2021-12-31" : String).toList) ∧
    ∃ y m r,
      extract_year_month (some "2021-12-31") =
        (some (String.mk y), some (String.mk m)) ∧
      ("2021-12-31" : String).toList = y ++ '-' :: (m ++ r) ∧ '-' ∉ y ∧
      '-' ∉ m ∧ (r = [] ∨ ∃ r', r = '-' :: r') :=
  ⟨c3_extract_year_month_amended.1,
    c3_extract_year_month_amended.2.1 "TTM" (Or.inr (Or.inl rfl)),
    c3_extract_year_month_amended.2.1 "2021" (Or.inr (Or.inr (by decide))),
    ⟨by decide, by decide, by decide⟩,
    c3_extract_year_month_amended.2.2 "2021-12-31" (by decide) (by decide)
      (by decide)⟩

example :
    process_file "TCK"
      ⟨some ⟨some ⟨[some "2021-12"],
        [("income_statement", [("revenue", [Raw.str "5"])])]⟩, none⟩⟩
      [("income_statement", [("revenue", 3)])] =
    .ok [⟨"TCK", "annuals", "2021", "12", some 3, mkRat 5 1⟩] := by decide

/-- **C4 (code evaluation at the failing input)**: a metric whose name has
no entry in the catalog mapping is *not* skipped by `process_file`; its
values are emitted as observation tuples whose metric id is absent
(`mapping[block_name].get(metric_name)` returned `None` and no check
follows), contradicting the claim that no tuple is emitted for such a
metric. -/
theorem c4_unmapped_metric_emits_tuple :
    process_file "TCK"
      ⟨some ⟨some ⟨[some "2021-12"],
        [("income_statement", [("mystery_metric", [Raw.str "5"])])]⟩, none⟩⟩
      [("income_statement", [])] =
    .ok [⟨"TCK", "annuals", "2021", "12", none, mkRat 5 1⟩] := by decide

/-- **C5 (counterexample)**: a document in which a metric has two values
but the fiscal-label sequence has only one entry makes `process_file`
raise an uncaught `IndexError` at the second index (the second value is
valid, so `fiscal_years[1]` is evaluated), refuting the claim that
extraction never throws out-of-bounds and processes only shared indices. -/
theorem c5_counterexample_index_error :
    process_file "TCK"
      ⟨some ⟨some ⟨[some "2021-12"],
        [("income_statement", [("revenue", [Raw.str "5", Raw.str "6"])])]⟩, none⟩⟩
      [("income_statement", [("revenue", 3)])] = .error .indexError := by decide

/-- A `List.lookup` hit names a pair of the association list. -/
theorem lookup_mem {α β : Type} [BEq α] [LawfulBEq α] {l : List (α × β)} {k : α}
    {v : β} (h : List.lookup k l = some v) : (k, v) ∈ l := by
  induction l with
  | nil => simp [List.lookup] at h
  | cons hd tl ih =>
    rcases hd with ⟨a, b⟩
    by_cases hk : k == a
    · simp only [List.lookup, hk] at h
      cases h
      have : k = a := eq_of_beq hk
      subst this
      exact List.mem_cons_self _ _
    · simp only [List.lookup, hk] at h
      exact List.mem_cons_of_mem _ (ih h)

theorem processMetricValues_ok (t p : String) (fys : List (Option String))
    (mid : Option Nat) (values : List Raw) :
    ∀ idx : Nat, idx + values.length ≤ fys.length →
      ∃ rs, processMetricValues t p fys mid idx values = .ok rs := by
  induction values with
  | nil => intro idx _; exact ⟨[], rfl⟩
  | cons v rest ih =>
    intro idx h
    simp only [List.length_cons] at h
    have hlt : idx < fys.length := by omega
    have hget : ∃ fy, fys.get? idx = some fy := List.get?_eq_get hlt ▸ ⟨_, rfl⟩
    obtain ⟨fy, hfy⟩ := hget
    obtain ⟨rs, hrs⟩ := ih (idx + 1) (by omega)
    cases hv : valid_number v with
    | none =>
      simp only [processMetricValues, hv]
      exact ⟨rs, hrs⟩
    | some value =>
      simp only [processMetricValues, hv, hfy]
      by_cases hy : (extract_year_month fy).1 = none ∨ (extract_year_month fy).1 = some ""
      · rw [if_pos hy]
        exact ⟨rs, hrs⟩
      · rw [if_neg hy, hrs]
        exact ⟨_, rfl⟩

theorem processBlockData_ok (t p : String) (fys : List (Option String))
    (mapping : List (String × List (String × Nat))) (blockName : String)
    (hb : (List.lookup blockName mapping).isSome) (bd : List (String × List Raw))
    (hlen : ∀ mv ∈ bd, (mv.2 : List Raw).length ≤ fys.length) :
    ∃ rs, processBlockData t p fys mapping blockName bd = .ok rs := by
  induction bd with
  | nil => exact ⟨[], rfl⟩
  | cons mv rest ih =>
    rcases mv with ⟨mname, values⟩
    obtain ⟨bm, hbm⟩ := Option.isSome_iff_exists.mp hb
    obtain ⟨rs1, hrs1⟩ := processMetricValues_ok t p fys (List.lookup mname bm) values 0
      (by simpa using hlen (mname, values) (List.mem_cons_self _ _))
    obtain ⟨rs2, hrs2⟩ := ih (fun x hx => hlen x (List.mem_cons_of_mem _ hx))
    simp only [processBlockData, hbm, hrs1, hrs2]
    exact ⟨_, rfl⟩

theorem processBlocks_ok (t p : String) (fys : List (Option String))
    (blocks : List (String × List (String × List Raw)))
    (mapping : List (String × List (String × Nat))) (bl : List String)
    (hmap : ∀ b ∈ bl, (List.lookup b mapping).isSome)
    (hlen : ∀ e ∈ blocks, ∀ mv ∈ e.2, (mv.2 : List Raw).length ≤ fys.length) :
    ∃ rs, processBlocks t p fys blocks mapping bl = .ok rs := by
  induction bl with
  | nil => exact ⟨[], rfl⟩
  | cons b rest ih =>
    cases hlb : List.lookup b blocks with
    | none =>
      simp only [processBlocks, hlb]
      exact ih fun x hx => hmap x (List.mem_cons_of_mem _ hx)
    | some bd =>
      obtain ⟨rs1, h1⟩ := processBlockData_ok t p fys mapping b
        (hmap b (List.mem_cons_self _ _)) bd
        (fun mv hmv => hlen (b, bd) (lookup_mem hlb) mv hmv)
      obtain ⟨rs2, h2⟩ := ih (fun x hx => hmap x (List.mem_cons_of_mem _ hx))
      simp only [processBlocks, hlb, h1, h2]
      exact ⟨_, rfl⟩

theorem processSection_ok (t p : String)
    (mapping : List (String × List (String × Nat)))
    (hmap : ∀ b ∈ FINANCIAL_BLOCKS, (List.lookup b mapping).isSome)
    (sec : Option PeriodSection)
    (hsec : ∀ s, sec = some s → sectionLenOkB s = true) :
    ∃ rs, processSection t p mapping sec = .ok rs := by
  cases sec with
  | none => exact ⟨[], rfl⟩
  | some s =>
    have hs := hsec s rfl
    simp only [sectionLenOkB, List.all_eq_true, decide_eq_true_eq] at hs
    exact processBlocks_ok t p s.fiscalYears s.blocks mapping FINANCIAL_BLOCKS hmap hs

/-- **C5 (amended)**: `process_file` raises no out-of-bounds error provided
every metric's value sequence is no longer than its section's fiscal-label
sequence (and the mapping has an entry for every recognized block); in that
case it processes exactly the value indices, which are then all present in
both sequences.  (When a valid value sits at an index beyond the label
sequence the code *does* raise, per the counterexample.) -/
theorem c5_process_file_ok_of_len_le (t : String) (doc : Document)
    (mapping : List (String × List (String × Nat)))
    (hmap : ∀ b ∈ FINANCIAL_BLOCKS, (List.lookup b mapping).isSome)
    (hlen : docLenOkB doc = true) :
    ∃ rows, process_file t doc mapping = .ok rows := by
  cases hf : doc.financials with
  | none => exact ⟨[], by simp [process_file, hf]⟩
  | some fin =>
    simp only [docLenOkB, hf, Bool.and_eq_true] at hlen
    obtain ⟨hla, hlq⟩ := hlen
    obtain ⟨a, ha⟩ := processSection_ok t "annuals" mapping hmap fin.annuals
      (by intro s hs; rw [hs] at hla; exact hla)
    obtain ⟨q, hq⟩ := processSection_ok t "quarterly" mapping hmap fin.quarterly
      (by intro s hs; rw [hs] at hlq; exact hlq)
    refine ⟨a ++ q, ?_⟩
    simp only [process_file, hf, ha, hq]

/-- Witness for the amended C5 theorem: a concrete document whose label
sequence is longer than the value sequence processes without error. -/
theorem c5_process_file_ok_of_len_le_witness :
    (∀ b ∈ FINANCIAL_BLOCKS,
      (List.lookup b [("per_share_data_array", [("eps", 1)]),
        ("common_size_ratios", []), ("income_statement", [("revenue", 3)]),
        ("balance_sheet", []), ("cashflow_statement", []),
        ("valuation_ratios", []), ("valuation_and_quality", [])]).isSome) ∧
    docLenOkB ⟨some ⟨some ⟨[some "2021-12", some "2022-12"],
      [("income_statement", [("revenue", [Raw.str "5"])])]⟩, none⟩⟩ = true ∧
    ∃ rows, process_file "TCK"
      ⟨some ⟨some ⟨[some "2021-12", some "2022-12"],
        [("income_statement", [("revenue", [Raw.str "5"])])]⟩, none⟩⟩
      [("per_share_data_array", [("eps", 1)]),
        ("common_size_ratios", []), ("income_statement", [("revenue", 3)]),
        ("balance_sheet", []), ("cashflow_statement", []),
        ("valuation_ratios", []), ("valuation_and_quality", [])] = .ok rows :=
  ⟨by decide, by decide,
    c5_process_file_ok_of_len_le "TCK" _ _ (by decide) (by decide)⟩

/-- **C10**: a candidate row is dropped exactly when the value is invalid
or the parsed year component is missing or empty — the month component is
never consulted.  Concretely, the label `"2021-"` (separator, empty month)
produces a row whose month is the empty string, while `"-12"` (empty year)
produces no row. -/
theorem c10_drop_only_on_year :
    (∀ (t p : String) (lab : Option String) (mid : Option Nat) (v : Raw),
      processMetricValues t p [lab] mid 0 [v] = .ok [] ↔
        (valid_number v = none ∨ (extract_year_month lab).1 = none ∨
          (extract_year_month lab).1 = some "")) ∧
    process_file "TCK"
      ⟨some ⟨some ⟨[some "2021-"],
        [("income_statement", [("revenue", [Raw.str "5"])])]⟩, none⟩⟩
      [("income_statement", [("revenue", 3)])] =
      .ok [⟨"TCK", "annuals", "2021", "", some 3, mkRat 5 1⟩] ∧
    process_file "TCK"
      ⟨some ⟨some ⟨[some "-12"],
        [("income_statement", [("revenue", [Raw.str "5"])])]⟩, none⟩⟩
      [("income_statement", [("revenue", 3)])] = .ok [] := by
  refine ⟨?_, by decide, by decide⟩
  intro t p lab mid v
  cases hv : valid_number v with
  | none =>
    simp only [processMetricValues, hv]
    simp
  | some value =>
    simp only [processMetricValues, hv, List.get?]
    by_cases hy : (extract_year_month lab).1 = none ∨ (extract_year_month lab).1 = some ""
    · rw [if_pos hy]
      exact iff_of_true (by simp [processMetricValues]) (Or.inr hy)
    · rw [if_neg hy]
      refine iff_of_false ?_ ?_
      · intro h
        simp [processMetricValues] at h
      · rintro (h | h)
        · cases h
        · exact hy h

theorem keyIn_insertObs_iff (t : List ObsTuple) (r : ObsTuple)
    (k : String × String × String × String × Nat) :
    keyIn (insertObs t r) k = true ↔ (keyIn t k = true ∨ obsKey r = k) := by
  unfold insertObs
  by_cases h : keyIn t (obsKey r) = true
  · rw [if_pos h]
    constructor
    · exact Or.inl
    · rintro (hh | hh)
      · exact hh
      · exact hh ▸ h
  · rw [if_neg h]
    unfold keyIn
    simp [List.any_append]

theorem keyIn_insert_fundamental_data_mono (rows : List ObsTuple)
    (t : List ObsTuple) (k : String × String × String × String × Nat)
    (h : keyIn t k = true) : keyIn (insert_fundamental_data t rows) k = true := by
  induction rows generalizing t with
  | nil => exact h
  | cons r rs ih =>
    show keyIn (insert_fundamental_data (insertObs t r) rs) k = true
    exact ih (insertObs t r) ((keyIn_insertObs_iff t r k).mpr (Or.inl h))

theorem keyIn_insert_fundamental_data_of_mem (table rows : List ObsTuple)
    (r : ObsTuple) (h : r ∈ rows) :
    keyIn (insert_fundamental_data table rows) (obsKey r) = true := by
  induction rows generalizing table with
  | nil => cases h
  | cons x xs ih =>
    show keyIn (insert_fundamental_data (insertObs table x) xs) (obsKey r) = true
    rcases List.mem_cons.mp h with h1 | h1
    · subst h1
      exact keyIn_insert_fundamental_data_mono xs (insertObs table r) (obsKey r)
        ((keyIn_insertObs_iff table r _).mpr (Or.inr rfl))
    · exact ih (insertObs table x) h1

theorem insert_fundamental_data_id_of_keys (t rows : List ObsTuple)
    (h : ∀ r ∈ rows, keyIn t (obsKey r) = true) :
    insert_fundamental_data t rows = t := by
  induction rows with
  | nil => rfl
  | cons r rs ih =>
    show insert_fundamental_data (insertObs t r) rs = t
    have hins : insertObs t r = t := by
      unfold insertObs
      rw [if_pos (h r (List.mem_cons_self _ _))]
    rw [hins]
    exact ih fun x hx => h x (List.mem_cons_of_mem _ hx)

/-- **C1**: loading the same sequence of observation tuples a second time
inserts nothing: every tuple's constraint key is already present after the
first load, so each conflicting insert is silently discarded and the table
is unchanged (idempotent re-ingestion). -/
theorem c1_reingest_idempotent (table rows : List ObsTuple) :
    insert_fundamental_data (insert_fundamental_data table rows) rows =
      insert_fundamental_data table rows :=
  insert_fundamental_data_id_of_keys _ rows fun r hr =>
    keyIn_insert_fundamental_data_of_mem table rows r hr

/-- **C6 (counterexample)**: a `(block, name)` pair committed by a
concurrent writer after the snapshot read (present in the live table,
absent from the snapshot) makes reconciliation fail with the uncaught
unique-constraint violation instead of re-reading the existing id. -/
theorem c6_counterexample_conflict_fatal :
    create_fundamental_data_type_rows []
      ⟨[("income_statement", "Revenue", 7)], 8⟩
      [("income_statement", ["Revenue"])] = .error () := by decide

theorem catKeyIn_append (t1 t2 : CatTable) (b n : String) :
    catKeyIn (t1 ++ t2) b n = (catKeyIn t1 b n || catKeyIn t2 b n) := by
  simp [catKeyIn, List.any_append]

theorem catKeyIn_catInsert_mono {st : CatState} {b n b' n' : String}
    {st' : CatState} {i : Nat} (h : catKeyIn st.table b n = true)
    (hins : catInsert st b' n' = .ok (st', i)) : catKeyIn st'.table b n = true := by
  unfold catInsert at hins
  by_cases hc : catKeyIn st.table b' n' = true
  · rw [if_pos hc] at hins; cases hins
  · rw [if_neg hc] at hins
    cases hins
    rw [catKeyIn_append, h, Bool.true_or]

theorem catKeyIn_createRowsForBlock_mono {snapshot : CatTable} {b0 : String}
    {b n : String} : ∀ {ns : List String} {st : CatState}
    {m : List ((String × String) × Nat)} {st' : CatState},
    catKeyIn st.table b n = true →
    createRowsForBlock snapshot b0 st ns = .ok (m, st') →
    catKeyIn st'.table b n = true := by
  intro ns
  induction ns with
  | nil =>
    intro st m st' h hok
    cases hok
    exact h
  | cons x rest ih =>
    intro st m st' h hok
    simp only [createRowsForBlock] at hok
    split at hok
    · split at hok
      · cases hok
      · cases hok
        next hrec => exact ih h hrec
    · split at hok
      · cases hok
      · next st1 i hins =>
        split at hok
        · cases hok
        · cases hok
          next hrec => exact ih (catKeyIn_catInsert_mono h hins) hrec

theorem createRowsForBlock_error_of_conflict {snapshot : CatTable}
    {b : String} {n : String} : ∀ {ns : List String} {st : CatState},
    n ∈ ns → catKeyIn st.table b n = true →
    existingLookup snapshot b n = none →
    createRowsForBlock snapshot b st ns = .error () := by
  intro ns
  induction ns with
  | nil => intro st hmem; cases hmem
  | cons x rest ih =>
    intro st hmem hkey hsnap
    rcases List.mem_cons.mp hmem with h1 | h1
    · subst h1
      simp only [createRowsForBlock, hsnap]
      unfold catInsert
      rw [if_pos hkey]
    · cases hel : existingLookup snapshot b x with
      | some i =>
        simp only [createRowsForBlock, hel, ih h1 hkey hsnap]
      | none =>
        cases hins : catInsert st b x with
        | error e =>
          cases e
          simp only [createRowsForBlock, hel, hins]
        | ok p =>
          rcases p with ⟨st1, i⟩
          simp only [createRowsForBlock, hel, hins,
            ih h1 (catKeyIn_catInsert_mono hkey hins) hsnap]

/-- **C6 (amended)**: a storage-level insert conflict on a `(block, name)`
pair — one that is present in the live catalog but was absent from the
snapshot the function read — is *not* treated as "already exists, re-read
the id": the uncaught unique-violation aborts the whole reconciliation.
Reconciliation is only safe when no concurrent catalog writer intervenes. -/
theorem c6_conflict_aborts_reconciliation (snapshot : CatTable) (st : CatState)
    (metrics : List (String × List String)) (b n : String) (ns : List String)
    (hb : (b, ns) ∈ metrics) (hn : n ∈ ns)
    (hkey : catKeyIn st.table b n = true)
    (hsnap : existingLookup snapshot b n = none) :
    create_fundamental_data_type_rows snapshot st metrics = .error () := by
  induction metrics generalizing st with
  | nil => cases hb
  | cons hd rest ih =>
    rcases hd with ⟨b0, ns0⟩
    rcases List.mem_cons.mp hb with h1 | h1
    · injection h1 with hb0 hns0
      subst hb0; subst hns0
      simp only [create_fundamental_data_type_rows]
      rw [createRowsForBlock_error_of_conflict hn hkey hsnap]
    · cases hblk : createRowsForBlock snapshot b0 st ns0 with
      | error e =>
        cases e
        simp only [create_fundamental_data_type_rows, hblk]
      | ok p =>
        rcases p with ⟨m1, st1⟩
        simp only [create_fundamental_data_type_rows, hblk,
          ih st1 h1 (catKeyIn_createRowsForBlock_mono hkey hblk)]

/-- Witness for the amended C6 theorem at a concrete conflicting state. -/
theorem c6_conflict_aborts_reconciliation_witness :
    (("income_statement", ["Revenue"]) ∈
        [("income_statement", ["Revenue"])] ∧
      "Revenue" ∈ ["Revenue"] ∧
      catKeyIn [("income_statement", "Revenue", 7)] "income_statement" "Revenue" = true ∧
      existingLookup [] "income_statement" "Revenue" = none) ∧
    create_fundamental_data_type_rows []
      ⟨[("income_statement", "Revenue", 7)], 8⟩
      [("income_statement", ["Revenue"])] = .error () :=
  ⟨⟨by decide, by decide, by decide, by decide⟩,
    c6_conflict_aborts_reconciliation [] ⟨[("income_statement", "Revenue", 7)], 8⟩
      [("income_statement", ["Revenue"])] "income_statement" "Revenue" ["Revenue"]
      (by decide) (by decide) (by decide) (by decide)⟩

theorem mem_applyDecFilter {α J : Type} [DecidableEq α] (q : List J)
    (v : Option α) (g : J → α) (j : J) :
    j ∈ applyFilter q v (fun j a => decide (g j = a)) ↔
      j ∈ q ∧ optMatch v (g j) = true := by
  cases v with
  | none => simp [applyFilter, optMatch]
  | some a => simp [applyFilter, optMatch, List.mem_filter]

theorem mem_applyStrFilter {J : Type} (q : List J) (v : Option String)
    (f : J → String) (j : J) (hv : v ≠ some "") :
    j ∈ applyStrFilter q v f ↔ j ∈ q ∧ optStrMatch v (f j) = true := by
  cases v with
  | none => simp [applyStrFilter, optStrMatch]
  | some s =>
    have hs : s ≠ "" := fun h => hv (by rw [h])
    simp [applyStrFilter, if_neg hs, optStrMatch, List.mem_filter]

theorem mem_queryFiltered (db : List ApiObsRow) (cat : List ApiCatRow)
    (ticker : String) (period : Option PeriodT) (year month : Option String)
    (stype : Option StatementT) (name : Option String)
    (rc : ApiObsRow × ApiCatRow)
    (hy : year ≠ some "") (hm : month ≠ some "") (hn : name ≠ some "") :
    rc ∈ queryFiltered db cat ticker period year month stype name ↔
      rc ∈ joinRows db cat ∧
        obsMatchesB ticker period year month stype name rc = true := by
  unfold queryFiltered obsMatchesB
  rw [mem_applyStrFilter _ _ _ _ hn, mem_applyDecFilter,
    mem_applyStrFilter _ _ _ _ hm, mem_applyStrFilter _ _ _ _ hy,
    mem_applyDecFilter, List.mem_filter]
  simp only [Bool.and_eq_true]
  tauto

/-- **C7**: in `get_data_by_ticker` the ticker is mandatory and
exact-matched, every supplied (non-empty) optional predicate is an
exact-match filter ANDed with the rest, and a result of zero matching
joined rows — in particular a ticker with no rows at all — yields the 404
error, never an empty success list; a success holds exactly the matching
rows and is never empty. -/
theorem c7_get_data_by_ticker_spec (db : List ApiObsRow) (cat : List ApiCatRow)
    (ticker : String) (period : Option PeriodT) (year month : Option String)
    (stype : Option StatementT) (name : Option String)
    (hy : year ≠ some "") (hm : month ≠ some "") (hn : name ≠ some "") :
    (get_data_by_ticker db cat ticker period year month stype name = .error () ↔
      ∀ rc ∈ joinRows db cat,
        obsMatchesB ticker period year month stype name rc = false) ∧
    (∀ l, get_data_by_ticker db cat ticker period year month stype name = .ok l →
      l ≠ [] ∧ ∀ rc, rc ∈ l ↔ (rc ∈ joinRows db cat ∧
        obsMatchesB ticker period year month stype name rc = true)) := by
  have hmem := fun rc =>
    mem_queryFiltered db cat ticker period year month stype name rc hy hm hn
  unfold get_data_by_ticker
  by_cases hq : queryFiltered db cat ticker period year month stype name = []
  · rw [if_pos hq]
    refine ⟨⟨fun _ rc hrc => ?_, fun _ => rfl⟩, fun l hl => by cases hl⟩
    cases hbv : obsMatchesB ticker period year month stype name rc with
    | false => rfl
    | true =>
      have hin := (hmem rc).mpr ⟨hrc, hbv⟩
      rw [hq] at hin
      cases hin
  · rw [if_neg hq]
    constructor
    · constructor
      · intro h
        cases h
      · intro hall
        exfalso
        apply hq
        refine List.eq_nil_iff_forall_not_mem.mpr fun rc hrc => ?_
        have hj := (hmem rc).mp hrc
        have hb := hall rc hj.1
        rw [hj.2] at hb
        cases hb
    · intro l hl
      injection hl with h2
      subst h2
      exact ⟨hq, hmem⟩

/-- Witness for C7 at a concrete store and a ticker with zero rows. -/
theorem c7_get_data_by_ticker_spec_witness :
    ((some "2021" : Option String) ≠ some "" ∧
      (none : Option String) ≠ some "" ∧ (none : Option String) ≠ some "") ∧
    ((get_data_by_ticker dbC7 catC7 "MSFT" none (some "2021") none none none =
        .error () ↔
      ∀ rc ∈ joinRows dbC7 catC7,
        obsMatchesB "MSFT" none (some "2021") none none none rc = false) ∧
    (∀ l, get_data_by_ticker dbC7 catC7 "MSFT" none (some "2021") none none none =
        .ok l →
      l ≠ [] ∧ ∀ rc, rc ∈ l ↔ (rc ∈ joinRows dbC7 catC7 ∧
        obsMatchesB "MSFT" none (some "2021") none none none rc = true))) :=
  ⟨⟨by decide, by decide, by decide⟩,
    c7_get_data_by_ticker_spec dbC7 catC7 "MSFT" none (some "2021") none none none
      (by decide) (by decide) (by decide)⟩

/-- **C9**: supplying an optional string filter as the empty string is
identical to omitting it — the predicate is not applied at all (Python
falsiness of `""`), so rows whose stored year, month or metric name is the
empty string cannot be selected for by these parameters. -/
theorem c9_empty_string_filters_ignored (db : List ApiObsRow)
    (cat : List ApiCatRow) (ticker : String) (period : Option PeriodT)
    (year month : Option String) (stype : Option StatementT)
    (name : Option String) :
    get_data_by_ticker db cat ticker period (some "") month stype name =
      get_data_by_ticker db cat ticker period none month stype name ∧
    get_data_by_ticker db cat ticker period year (some "") stype name =
      get_data_by_ticker db cat ticker period year none stype name ∧
    get_data_by_ticker db cat ticker period year month stype (some "") =
      get_data_by_ticker db cat ticker period year month stype none :=
  ⟨rfl, rfl, rfl⟩

theorem availAppend_inv {seen : List (PeriodT × String × String)}
    {r : PeriodT × String × String} (hr : r ∉ seen) :
    ∀ avail, AvailInv seen avail →
      AvailInv (seen ++ [r]) (availAppend avail r.1 (r.2.1, r.2.2)) := by
  intro avail
  induction avail with
  | nil =>
    intro _ p l hpl
    simp only [availAppend, List.mem_singleton, Prod.mk.injEq] at hpl
    obtain ⟨hp, hl⟩ := hpl
    subst hp; subst hl
    refine ⟨List.nodup_singleton _, fun e he => ?_⟩
    rw [List.mem_singleton.mp he]
    exact List.mem_append_right seen (List.mem_singleton.mpr rfl)
  | cons hd rest ih =>
    rcases hd with ⟨q, l0⟩
    intro inv p l hpl
    have invHead := inv q l0 (List.mem_cons_self _ _)
    by_cases hq : q = r.1
    · rw [availAppend, if_pos hq] at hpl
      rcases List.mem_cons.mp hpl with h1 | h1
      · injection h1 with hp hl
        subst hp; subst hl
        constructor
        · rw [List.nodup_append]
          refine ⟨invHead.1, List.nodup_singleton _, fun e he he' => ?_⟩
          have hkey := invHead.2 e he
          rw [List.mem_singleton.mp he'] at hkey
          rw [hq] at hkey
          exact hr hkey
        · intro e he
          rcases List.mem_append.mp he with h2 | h2
          · exact List.mem_append_left _ (invHead.2 e h2)
          · rw [List.mem_singleton.mp h2, hq]
            exact List.mem_append_right seen (List.mem_singleton.mpr rfl)
      · have h2 := inv p l (List.mem_cons_of_mem _ h1)
        exact ⟨h2.1, fun e he => List.mem_append_left _ (h2.2 e he)⟩
    · rw [availAppend, if_neg hq] at hpl
      rcases List.mem_cons.mp hpl with h1 | h1
      · injection h1 with hp hl
        subst hp; subst hl
        exact ⟨invHead.1, fun e he => List.mem_append_left _ (invHead.2 e he)⟩
      · exact ih (fun p' l' h => inv p' l' (List.mem_cons_of_mem _ h)) p l h1

theorem buildAvailability_nodup :
    ∀ (rows seen : List (PeriodT × String × String))
      (avail : List (PeriodT × List (String × String))), AvailInv seen avail →
      ∀ p l, (p, l) ∈ buildAvailability rows seen avail → l.Nodup := by
  intro rows
  induction rows with
  | nil => intro seen avail inv p l hpl; exact (inv p l hpl).1
  | cons r rest ih =>
    intro seen avail inv p l hpl
    simp only [buildAvailability] at hpl
    by_cases hr : r ∈ seen
    · rw [if_pos hr] at hpl
      exact ih seen avail inv p l hpl
    · rw [if_neg hr] at hpl
      exact ih _ _ (availAppend_inv hr avail inv) p l hpl

theorem mem_availAppend (avail : List (PeriodT × List (String × String)))
    (p0 : PeriodT) (e0 : String × String) (p : PeriodT) (e : String × String) :
    (∃ l, (p, l) ∈ availAppend avail p0 e0 ∧ e ∈ l) ↔
      ((∃ l, (p, l) ∈ avail ∧ e ∈ l) ∨ (p = p0 ∧ e = e0)) := by
  induction avail with
  | nil =>
    simp only [availAppend, List.mem_singleton, List.not_mem_nil, false_and,
      exists_const, false_or, Prod.mk.injEq]
    constructor
    · rintro ⟨l, ⟨hp, hl⟩, he⟩
      subst hl
      exact ⟨hp, List.mem_singleton.mp he⟩
    · rintro ⟨hp, he⟩
      exact ⟨[e0], ⟨hp, rfl⟩, by rw [he]; exact List.mem_singleton.mpr rfl⟩
  | cons hd rest ih =>
    rcases hd with ⟨q, l0⟩
    by_cases hq : q = p0
    · subst hq
      simp only [availAppend, if_pos rfl]
      constructor
      · rintro ⟨l, hl, he⟩
        rcases List.mem_cons.mp hl with h1 | h1
        · injection h1 with hp hleq
          rw [hleq] at he
          rcases List.mem_append.mp he with h2 | h2
          · exact Or.inl ⟨l0, List.mem_cons.mpr (Or.inl (by rw [hp])), h2⟩
          · exact Or.inr ⟨hp, List.mem_singleton.mp h2⟩
        · exact Or.inl ⟨l, List.mem_cons_of_mem _ h1, he⟩
      · rintro (⟨l, hl, he⟩ | ⟨hp, he⟩)
        · rcases List.mem_cons.mp hl with h1 | h1
          · injection h1 with hp hleq
            refine ⟨l0 ++ [e0], List.mem_cons.mpr (Or.inl (by rw [hp])), ?_⟩
            exact List.mem_append_left _ (hleq ▸ he)
          · exact ⟨l, List.mem_cons_of_mem _ h1, he⟩
        · refine ⟨l0 ++ [e0], List.mem_cons.mpr (Or.inl (by rw [hp])), ?_⟩
          rw [he]
          exact List.mem_append_right l0 (List.mem_singleton.mpr rfl)
    · simp only [availAppend, if_neg hq]
      constructor
      · rintro ⟨l, hl, he⟩
        rcases List.mem_cons.mp hl with h1 | h1
        · exact Or.inl ⟨l, List.mem_cons.mpr (Or.inl h1), he⟩
        · rcases ih.mp ⟨l, h1, he⟩ with h2 | h2
          · exact Or.inl ⟨h2.choose, List.mem_cons_of_mem _ h2.choose_spec.1,
              h2.choose_spec.2⟩
          · exact Or.inr h2
      · rintro (⟨l, hl, he⟩ | ⟨hp, he⟩)
        · rcases List.mem_cons.mp hl with h1 | h1
          · exact ⟨l, List.mem_cons.mpr (Or.inl h1), he⟩
          · obtain ⟨l', hl', he'⟩ := ih.mpr (Or.inl ⟨l, h1, he⟩)
            exact ⟨l', List.mem_cons_of_mem _ hl', he'⟩
        · obtain ⟨l', hl', he'⟩ := ih.mpr (Or.inr ⟨hp, he⟩)
          exact ⟨l', List.mem_cons_of_mem _ hl', he'⟩

theorem mem_buildAvailability :
    ∀ (rows seen : List (PeriodT × String × String))
      (avail : List (PeriodT × List (String × String)))
      (p : PeriodT) (e : String × String),
      (∃ l, (p, l) ∈ buildAvailability rows seen avail ∧ e ∈ l) ↔
        ((∃ l, (p, l) ∈ avail ∧ e ∈ l) ∨
          ((p, e.1, e.2) ∈ rows ∧ (p, e.1, e.2) ∉ seen)) := by
  intro rows
  induction rows with
  | nil =>
    intro seen avail p e
    simp [buildAvailability]
  | cons r rest ih =>
    intro seen avail p e
    simp only [buildAvailability]
    by_cases hr : r ∈ seen
    · rw [if_pos hr, ih]
      constructor
      · rintro (h | ⟨h1, h2⟩)
        · exact Or.inl h
        · exact Or.inr ⟨List.mem_cons_of_mem _ h1, h2⟩
      · rintro (h | ⟨h1, h2⟩)
        · exact Or.inl h
        · rcases List.mem_cons.mp h1 with h3 | h3
          · exact absurd (by rw [h3]; exact hr) h2
          · exact Or.inr ⟨h3, h2⟩
    · rw [if_neg hr, ih, mem_availAppend]
      constructor
      · rintro ((h | ⟨hp, he⟩) | ⟨h1, h2⟩)
        · exact Or.inl h
        · have hkey : (p, e.1, e.2) = r := by rw [hp, he]
          refine Or.inr ⟨?_, ?_⟩
          · rw [hkey]; exact List.mem_cons_self r rest
          · rw [hkey]; exact hr
        · refine Or.inr ⟨List.mem_cons_of_mem _ h1, fun hc => h2 ?_⟩
          exact List.mem_append_left _ hc
      · rintro (h | ⟨h1, h2⟩)
        · exact Or.inl (Or.inl h)
        · by_cases hkr : (p, e.1, e.2) = r
          · refine Or.inl (Or.inr ⟨congrArg Prod.fst hkr, ?_⟩)
            exact congrArg Prod.snd hkr
          · have h3 : (p, e.1, e.2) ∈ rest := (List.mem_cons.mp h1).resolve_left hkr
            refine Or.inr ⟨h3, fun hc => ?_⟩
            rcases List.mem_append.mp hc with h4 | h4
            · exact h2 h4
            · exact hkr (List.mem_singleton.mp h4)

/-- **C8**: `get_ticker_availability` returns the 404 error exactly when
the ticker has zero observations; a success groups precisely the distinct
`(period, year, month)` combinations of that ticker's rows by period, and
no period's list ever contains the same `(year, month)` entry twice, even
when the underlying table holds duplicate rows for that combination. -/
theorem c8_get_ticker_availability_spec (db : List ApiObsRow) (ticker : String) :
    (get_ticker_availability db ticker = .error () ↔ ∀ r ∈ db, r.ticker ≠ ticker) ∧
    (∀ avail, get_ticker_availability db ticker = .ok avail →
      (∀ p l, (p, l) ∈ avail → l.Nodup) ∧
      (∀ (p : PeriodT) (e : String × String), (∃ l, (p, l) ∈ avail ∧ e ∈ l) ↔
        ∃ r ∈ db, r.ticker = ticker ∧ r.period = p ∧ r.year = e.1 ∧
          r.month = e.2)) := by
  have hrows : ∀ x, x ∈ ((db.filter fun r => decide (r.ticker = ticker)).map
      fun r => (r.period, r.year, r.month)).dedup ↔
      ∃ r ∈ db, r.ticker = ticker ∧ (r.period, r.year, r.month) = x := by
    intro x
    simp [List.mem_dedup, List.mem_map, List.mem_filter]
    constructor
    · rintro ⟨r, ⟨hr, ht⟩, hx⟩; exact ⟨r, hr, ht, hx⟩
    · rintro ⟨r, hr, ht, hx⟩; exact ⟨r, ⟨hr, ht⟩, hx⟩
  constructor
  · unfold get_ticker_availability
    by_cases hq : ((db.filter fun r => decide (r.ticker = ticker)).map
        fun r => (r.period, r.year, r.month)).dedup = []
    · rw [if_pos hq]
      simp only [List.dedup_eq_nil, List.map_eq_nil_iff,
        List.filter_eq_nil_iff, decide_eq_true_eq] at hq
      exact iff_of_true rfl hq
    · rw [if_neg hq]
      refine iff_of_false (fun h => by cases h) fun hall => hq ?_
      simp only [List.dedup_eq_nil, List.map_eq_nil_iff, List.filter_eq_nil_iff,
        decide_eq_true_eq]
      exact hall
  · intro avail havail
    unfold get_ticker_availability at havail
    by_cases hq : ((db.filter fun r => decide (r.ticker = ticker)).map
        fun r => (r.period, r.year, r.month)).dedup = []
    · rw [if_pos hq] at havail; cases havail
    · rw [if_neg hq] at havail
      injection havail with h2
      subst h2
      constructor
      · exact buildAvailability_nodup _ [] []
          (fun p l h => absurd h (List.not_mem_nil _))
      · intro p e
        rw [mem_buildAvailability]
        simp only [List.not_mem_nil, false_and, exists_const, false_or,
          not_false_eq_true, and_true]
        rw [hrows]
        constructor
        · rintro ⟨r, hr, ht, hx⟩
          refine ⟨r, hr, ht, ?_, ?_, ?_⟩
          · exact congrArg Prod.fst hx
          · exact congrArg (fun z => z.2.1) hx
          · exact congrArg (fun z => z.2.2) hx
        · rintro ⟨r, hr, ht, hp, hy2, hm2⟩
          exact ⟨r, hr, ht, by rw [hp, hy2, hm2]⟩

/-- Witness for C8 at a concrete table containing a duplicated
`(period, year, month)` combination. -/
theorem c8_get_ticker_availability_spec_witness :
    (get_ticker_availability dbC8 "AAPL" = .error () ↔
      ∀ r ∈ dbC8, r.ticker ≠ "AAPL") ∧
    (∀ avail, get_ticker_availability dbC8 "AAPL" = .ok avail →
      (∀ p l, (p, l) ∈ avail → l.Nodup) ∧
      (∀ (p : PeriodT) (e : String × String), (∃ l, (p, l) ∈ avail ∧ e ∈ l) ↔
        ∃ r ∈ dbC8, r.ticker = "AAPL" ∧ r.period = p ∧ r.year = e.1 ∧
          r.month = e.2)) :=
  c8_get_ticker_availability_spec dbC8 "AAPL"

example : pyFloat "12.5" = some (mkRat 25 2) := by decide

example : pyFloat "N/A" = none := by decide

example : pyFloat "-3" = some (mkRat (-3) 1) := by decide

example : pyFloat "-" = none := by decide

example : pyFloat "" = none := by decide

example : valid_number (.str "5") = some (mkRat 5 1) := by decide

example : extract_year_month (some "2021-12") = (some "2021", some "12") := by decide

example : extract_year_month (some "2021-12-31") = (some "2021", some "12") := by decide

example : extract_year_month (some "TTM") = (none, none) := by decide

example : extract_year_month (some "2021-") = (some "2021", some "") := by decide

example : extract_year_month (some "-12") = (some "", some "12") := by decide
